import Mathlib

/-!
# sftpgo-hook: the NetAuth external-authentication hook for SFTPGo

A shallow embedding of `main.go` and a verification of its decision chain.

The program reads the login attempt from the process environment, asks the
NetAuth identity service up to three questions, and prints one JSON profile
for SFTPGo on standard output.

Modelling conventions.

* Go strings are Lean strings (the valid UTF-8 ones); `len` is the byte length.
* A Go `error` is `Option GoError`; `none` is `nil`.
* The process environment is a function from variable names to values
  (`os.Getenv` returns the empty string for an unset variable).
* The NetAuth client is a record of the answers the service gives; each remote
  call is recorded, in order, in `World.calls`.
* Everything written to standard output is accumulated in `World.stdout`.
* Standard-library and third-party functions the program calls
  (`status.Code`, protobuf getters, `filepath.Join`, `json.Marshal`,
  `fmt.Println`) are modelled after their documented behaviour on Unix.
-/

namespace SftpgoHook

/-! ## Go and gRPC basics -/

/-- Go built-in `len` on a string: the number of bytes. -/
def len (s : String) : Nat := s.utf8ByteSize

/-- The gRPC status codes of `google.golang.org/grpc/codes`. -/
inductive Code
  | OK | Canceled | Unknown | InvalidArgument | DeadlineExceeded | NotFound
  | AlreadyExists | PermissionDenied | ResourceExhausted | FailedPrecondition
  | Aborted | OutOfRange | Unimplemented | Internal | Unavailable | DataLoss
  | Unauthenticated
  deriving DecidableEq, Repr

/-- A non-nil Go error: its message, and the gRPC status code it carries when
it is (or wraps) a gRPC status error. -/
structure GoError where
  msg : String
  grpc : Option Code := none
  deriving DecidableEq, Repr

/-- The function `status.Code`: `OK` for a nil error, the carried code for a
gRPC status error, `Unknown` for any other error. -/
def statusCode : Option GoError → Code
  | none => Code.OK
  | some e => e.grpc.getD Code.Unknown

/-! ## NetAuth protocol messages (the fields the hook reads) -/

/-- Message `EntityMeta`; only `Locked` is read. -/
structure EntityMeta where
  Locked : Option Bool := none
  deriving DecidableEq, Repr

/-- Message `Entity`; only `Number` and `Meta` are read. -/
structure Entity where
  Number : Option Int := none
  Meta : Option EntityMeta := none
  deriving DecidableEq, Repr

/-- Message `Group`; only `Name` is read. -/
structure Group where
  Name : Option String := none
  deriving DecidableEq, Repr

/-- Getter `(*Entity).GetMeta`, nil-safe. -/
def Entity.GetMeta : Option Entity → Option EntityMeta
  | some e => e.Meta
  | none => none

/-- Getter `(*EntityMeta).GetLocked`, nil-safe, default `false`. -/
def EntityMeta.GetLocked : Option EntityMeta → Bool
  | some m => m.Locked.getD false
  | none => false

/-- Getter `(*Entity).GetNumber`, nil-safe, default `0`. -/
def Entity.GetNumber : Option Entity → Int
  | some e => e.Number.getD 0
  | none => 0

/-- Getter `(*Group).GetName`, default the empty string. -/
def Group.GetName (g : Group) : String := g.Name.getD ""

/-! ## The world: standard output and the trace of remote calls -/

/-- One remote call of the NetAuth client, with its arguments. -/
inductive Call
  | EntityInfo (id : String)
  | EntityGroups (id : String)
  | EntityKeys (id action kind key : String)
  | AuthEntity (id secret : String)
  deriving DecidableEq, Repr

/-- Observable effects of a run. -/
structure World where
  stdout : String := ""
  calls : List Call := []
  deriving DecidableEq, Repr

/-- Answers of the identity service to the four requests the hook can make. -/
structure Client where
  entityInfo : String → Option Entity × Option GoError
  entityGroups : String → List Group × Option GoError
  entityKeys : String → String → String → String →
    List (String × List String) × Option GoError
  authEntity : String → String → Option GoError

/-- Effectful Go code: a state transformer over the world. -/
abbrev Go := StateM World

/-- Record a remote call. -/
def trace (k : Call) : Go Unit :=
  modify fun w => { w with calls := w.calls ++ [k] }

/-- Method `c.EntityInfo(ctx, id)`. -/
def Client.EntityInfo (c : Client) (id : String) :
    Go (Option Entity × Option GoError) := do
  trace (Call.EntityInfo id)
  return c.entityInfo id

/-- Method `c.EntityGroups(ctx, id)`. -/
def Client.EntityGroups (c : Client) (id : String) :
    Go (List Group × Option GoError) := do
  trace (Call.EntityGroups id)
  return c.entityGroups id

/-- Method `c.EntityKeys(ctx, id, action, kind, key)`. -/
def Client.EntityKeys (c : Client) (id action kind key : String) :
    Go (List (String × List String) × Option GoError) := do
  trace (Call.EntityKeys id action kind key)
  return c.entityKeys id action kind key

/-- Method `c.AuthEntity(ctx, id, secret)`. -/
def Client.AuthEntity (c : Client) (id secret : String) :
    Go (Option GoError) := do
  trace (Call.AuthEntity id secret)
  return c.authEntity id secret

/-- Write a string to standard output. -/
def write (s : String) : Go Unit :=
  modify fun w => { w with stdout := w.stdout ++ s }

/-- Go map index `m[k]` on a map to string slices: the zero value (nil slice)
when the key is absent. -/
def mapIndex (m : List (String × List String)) (k : String) : List String :=
  match m with
  | [] => []
  | (k', v) :: rest => if k' = k then v else mapIndex rest k

/-! ## encoding/json, as used on the profile -/

/-- Filter section of the profile (struct `userFilters`). -/
structure userFilters where
  DeniedLoginMethods : List String := []
  deriving DecidableEq, Repr

/-- The profile handed to SFTPGo (struct `minimalSFTPGoUser`). A nil map is
`none`; a map is its list of entries; a nil slice inside the map is `none`. -/
structure minimalSFTPGoUser where
  Status : Int := 0
  Username : String := ""
  HomeDir : String := ""
  UID : Int := 0
  GID : Int := 0
  Permissions : Option (List (String × Option (List String))) := none
  Filters : userFilters := {}
  deriving DecidableEq, Repr

/-- JSON values that occur in the encoding of a profile: `null`, integers,
strings, and objects whose members are string arrays (or `null`). -/
inductive JVal
  | null
  | num (n : Int)
  | str (s : String)
  | obj (members : List (String × Option (List String)))
  deriving DecidableEq, Repr

/-- The table `hex` of encoding/json. -/
def hex (n : Nat) : Char := "0123456789abcdef".data.getD n '0'

/-- Encoding of one character of a string with HTML escaping on, as
`json.Marshal` does it (Go 1.22 and later write backspace and form feed as
`\b` and `\f`; earlier releases wrote `\u0008` and `\u000c`). -/
def encodeChar (c : Char) : List Char :=
  if c = '\x5c' ∨ c = '\x22' then ['\x5c', c]
  else if c = '\x08' then ['\x5c', 'b']
  else if c = '\x0c' then ['\x5c', 'f']
  else if c = '\n' then ['\x5c', 'n']
  else if c = '\r' then ['\x5c', 'r']
  else if c = '\t' then ['\x5c', 't']
  else if c.toNat < 32 ∨ c = '<' ∨ c = '>' ∨ c = '&' then
    ['\x5c', 'u', '0', '0', hex (c.toNat / 16), hex (c.toNat % 16)]
  else if c = '\u2028' ∨ c = '\u2029' then
    ['\x5c', 'u', '2', '0', '2', hex (c.toNat % 16)]
  else [c]

/-- JSON string literal for a Go string. -/
def encodeString (s : String) : String :=
  "\"" ++ String.mk (s.data.flatMap encodeChar) ++ "\""

/-- JSON array of strings, `null` for a nil slice. -/
def encodeSlice : Option (List String) → String
  | none => "null"
  | some xs => "[" ++ String.intercalate "," (xs.map encodeString) ++ "]"

/-- JSON object from already encoded members, in the order given. -/
def encodeObject (members : List (String × String)) : String :=
  "\x7b" ++ String.intercalate ","
    (members.map fun kv => encodeString kv.1 ++ ":" ++ kv.2) ++ "\x7d"

/-- Text of a JSON value. A map is written with its keys in sorted order. -/
def JVal.encode : JVal → String
  | JVal.null => "null"
  | JVal.num n => toString n
  | JVal.str s => encodeString s
  | JVal.obj ms =>
    encodeObject ((ms.insertionSort fun a b => a.1 ≤ b.1).map
      fun kv => (kv.1, encodeSlice kv.2))

/-- Members of the JSON object for `userFilters`: `denied_login_methods` is
tagged omitempty. -/
def userFilters.members (f : userFilters) : List (String × Option (List String)) :=
  if f.DeniedLoginMethods.length = 0 then []
  else [("denied_login_methods", some f.DeniedLoginMethods)]

/-- Members of the JSON object for a profile, in field order, following the
struct tags: `status`, `home_dir`, `uid` and `gid` are tagged omitempty and
are left out when zero or empty; a nil map is `null`. -/
def minimalSFTPGoUser.members (u : minimalSFTPGoUser) : List (String × JVal) :=
  (if u.Status = 0 then [] else [("status", JVal.num u.Status)]) ++
  [("username", JVal.str u.Username)] ++
  (if len u.HomeDir = 0 then [] else [("home_dir", JVal.str u.HomeDir)]) ++
  (if u.UID = 0 then [] else [("uid", JVal.num u.UID)]) ++
  (if u.GID = 0 then [] else [("gid", JVal.num u.GID)]) ++
  [("permissions", match u.Permissions with
      | none => JVal.null
      | some m => JVal.obj m)] ++
  [("filters", JVal.obj u.Filters.members)]

/-- Result of `json.Marshal(u)` as a string (it cannot fail on this type). -/
def jsonMarshal (u : minimalSFTPGoUser) : String :=
  encodeObject (u.members.map fun kv => (kv.1, kv.2.encode))

/-- Function `dumpUser`: print the JSON encoding of the profile and a newline. -/
def dumpUser (u : minimalSFTPGoUser) : Go Unit :=
  write (jsonMarshal u ++ "\n")

/-! ## path/filepath and fmt -/

/-- Path elements of a path: the pieces between separators. -/
def splitPath : List Char → List String
  | [] => [""]
  | c :: cs =>
    match splitPath cs with
    | [] => [String.mk [c]]
    | e :: es => if c = '/' then "" :: e :: es else String.mk (c :: e.data) :: es

/-- One step of `filepath.Clean` over the cleaned elements so far (last one
first): empty and `.` elements are dropped, `..` removes the element before
it, is dropped at the root, and is kept at the start of a relative path. -/
def cleanStep (rooted : Bool) (out : List String) (e : String) : List String :=
  if e = "" ∨ e = "." then out
  else if e = ".." then
    match out with
    | [] => if rooted then [] else [".."]
    | top :: rest => if top = ".." then ".." :: top :: rest else rest
  else e :: out

/-- Function `filepath.Clean` on Unix: the shortest path that names the same
file by purely lexical processing. -/
def Clean (path : String) : String :=
  if path = "" then "."
  else
    let rooted := path.data.head? = some '/'
    let out := (splitPath path.data).foldl (cleanStep rooted) []
    let body := String.intercalate "/" out.reverse
    if rooted then "/" ++ body
    else if body = "" then "." else body

/-- Function `filepath.Join` on Unix: leading empty elements are ignored, the
rest is joined with the separator and cleaned; no non-empty element gives the
empty string. -/
def filepathJoin : List String → String
  | [] => ""
  | e :: rest =>
    if e = "" then filepathJoin rest
    else Clean (String.intercalate "/" (e :: rest))

/-- A path element that `filepath.Clean` keeps as it is: not empty, not `.`
and not `..`. -/
def plainElement (e : String) : Bool :=
  e ≠ "" && e ≠ "." && e ≠ ".."

/-- A relative path all of whose elements are plain, such as `alice` or
`team/alice`. -/
def plainRelative (s : String) : Bool :=
  (splitPath s.data).all plainElement

/-- An absolute path all of whose elements are plain, such as `/home` or
`/srv/sftp`. -/
def plainAbsolute (s : String) : Bool :=
  match s.data with
  | [] => false
  | c :: rest => c = '/' && (splitPath rest).all plainElement

/-- Function `fmt.Println` on already formatted operands: separated by
spaces, ended by a newline. -/
def Println (operands : List String) : Go Unit :=
  write (String.intercalate " " operands ++ "\n")

/-! ## The authorization gate -/

/-- Function `doAuth`: fetch the login attempt from the environment and query
the NetAuth server to decide whether the user is allowed. Checks, in order:
the entity exists, is unlocked, is a member of the optional group, and has
presented a valid public key or else a valid password. -/
def doAuth (Getenv : String → String) (c : Client) : Go Unit := do
  -- Fish things out of the environment
  let username := Getenv "SFTPGO_AUTHD_USERNAME"
  let password := Getenv "SFTPGO_AUTHD_PASSWORD"
  let publickey := Getenv "SFTPGO_AUTHD_PUBLIC_KEY"
  let requireGroup := Getenv "SFTPGO_NETAUTH_REQUIREGROUP"

  let (entity, err) ← c.EntityInfo username
  if statusCode err ≠ Code.OK || EntityMeta.GetLocked (Entity.GetMeta entity) then
    dumpUser {}
    return

  if len requireGroup > 0 then
    let (groups, err) ← c.EntityGroups username
    if statusCode err ≠ Code.OK then
      dumpUser {}
      return
    let mut set : List String := []
    for group in groups do
      set := group.GetName :: set
    let ok := set.contains requireGroup
    if !ok then
      dumpUser {}
      return

  if len publickey > 0 then
    let (keys, err) ← c.EntityKeys username "READ" "SSH" ""
    if statusCode err ≠ Code.OK then
      dumpUser {}
      return
    let mut found := false
    for k in mapIndex keys "SSH" do
      if k = publickey then
        found := true
        break
    if !found then
      dumpUser {}
      return
  else
    let err ← c.AuthEntity username password
    if statusCode err ≠ Code.OK then
      dumpUser {}
      return

  let u : minimalSFTPGoUser := {
    Status := 1
    Username := username
    UID := Entity.GetNumber entity
    HomeDir := filepathJoin [Getenv "SFTPGO_NETAUTH_HOMEDIR", username]
    Permissions := some [("/", some ["*"])]
  }
  dumpUser u

/-! ## The program -/

/-- Where viper is told to look for the configuration. -/
inductive ConfigSource
  | file (path : String)
  | search (name : String) (paths : List String)
  deriving DecidableEq, Repr

/-- Surroundings of one process run, after the command line is parsed: the two
flags, the environment, what reading the configuration returns, and what
`netauth.New()` returns (a client or an error). -/
structure Host where
  cfgfile : String := ""
  verbose : Bool := false
  Getenv : String → String
  ReadInConfig : ConfigSource → Option GoError
  New : Except GoError Client

/-- Configuration source set up at the start of `main`. -/
def configSource (cfgfile : String) : ConfigSource :=
  if cfgfile ≠ "" then ConfigSource.file cfgfile
  else ConfigSource.search "config" [".", "$HOME/.netauth", "/etc/netauth/"]

/-- Function `main`; the value returned is the exit code of the process
(`os.Exit(1)` on the two fatal paths, 0 when `main` returns). Log records go
to standard error and are not part of the world. -/
def main (h : Host) : Go Nat := do
  match h.ReadInConfig (configSource h.cfgfile) with
  | some err =>
    Println ["Error reading config:", err.msg]
    dumpUser {}
    return 1
  | none =>
    match h.New with
    | Except.error _ =>
      dumpUser {}
      return 1
    | Except.ok c =>
      -- c.SetServiceName("sftpgo") only sets a field of the client
      doAuth h.Getenv c
      return 0

/-! ## Observations and the vocabulary of the specification -/

/-- Text that `doAuth` writes to standard output when run in a fresh world. -/
def emitted (Getenv : String → String) (c : Client) : String :=
  (doAuth Getenv c {}).2.stdout

/-- Remote calls that `doAuth` makes, in order, when run in a fresh world. -/
def called (Getenv : String → String) (c : Client) : List Call :=
  (doAuth Getenv c {}).2.calls

/-- The Deny payload: what `dumpUser` prints for the zeroed profile. -/
def denyPayload : String := jsonMarshal {} ++ "\n"

/-- The Allow profile for a user name, the entity record and the base
directory. -/
def allowProfile (Getenv : String → String) (entity : Option Entity) :
    minimalSFTPGoUser where
  Status := 1
  Username := Getenv "SFTPGO_AUTHD_USERNAME"
  HomeDir := filepathJoin [Getenv "SFTPGO_NETAUTH_HOMEDIR", Getenv "SFTPGO_AUTHD_USERNAME"]
  UID := Entity.GetNumber entity
  GID := 0
  Permissions := some [("/", some ["*"])]
  Filters := { DeniedLoginMethods := [] }

/-- The Allow payload of a run: what `dumpUser` prints for the Allow profile
built from the entity record that the service returns. -/
def allowPayload (Getenv : String → String) (c : Client) : String :=
  jsonMarshal (allowProfile Getenv (c.entityInfo (Getenv "SFTPGO_AUTHD_USERNAME")).1) ++ "\n"

/-- Condition (1) of the specification: the entity lookup returns OK and the
entity is not locked. -/
def entityOK (Getenv : String → String) (c : Client) : Prop :=
  statusCode (c.entityInfo (Getenv "SFTPGO_AUTHD_USERNAME")).2 = Code.OK ∧
  EntityMeta.GetLocked (Entity.GetMeta (c.entityInfo (Getenv "SFTPGO_AUTHD_USERNAME")).1) = false

/-- Condition (2) of the specification: no group is required, or the group
lookup returns OK and some returned group has exactly the required name. -/
def groupOK (Getenv : String → String) (c : Client) : Prop :=
  Getenv "SFTPGO_NETAUTH_REQUIREGROUP" = "" ∨
  (statusCode (c.entityGroups (Getenv "SFTPGO_AUTHD_USERNAME")).2 = Code.OK ∧
    ∃ g ∈ (c.entityGroups (Getenv "SFTPGO_AUTHD_USERNAME")).1,
      g.GetName = Getenv "SFTPGO_NETAUTH_REQUIREGROUP")

/-- Condition (3) of the specification: with a public key, the key lookup
returns OK and the key is in the returned SSH list; without one, the password
check returns OK. -/
def credentialOK (Getenv : String → String) (c : Client) : Prop :=
  if Getenv "SFTPGO_AUTHD_PUBLIC_KEY" ≠ "" then
    statusCode (c.entityKeys (Getenv "SFTPGO_AUTHD_USERNAME") "READ" "SSH" "").2 = Code.OK ∧
    Getenv "SFTPGO_AUTHD_PUBLIC_KEY" ∈
      mapIndex (c.entityKeys (Getenv "SFTPGO_AUTHD_USERNAME") "READ" "SSH" "").1 "SSH"
  else
    statusCode (c.authEntity (Getenv "SFTPGO_AUTHD_USERNAME")
      (Getenv "SFTPGO_AUTHD_PASSWORD")) = Code.OK

instance (Getenv : String → String) (c : Client) : Decidable (entityOK Getenv c) :=
  inferInstanceAs (Decidable (_ ∧ _))

instance (Getenv : String → String) (c : Client) : Decidable (groupOK Getenv c) :=
  inferInstanceAs (Decidable (_ ∨ _))

instance (Getenv : String → String) (c : Client) : Decidable (credentialOK Getenv c) :=
  inferInstanceAs (Decidable (ite _ _ _))

/-- Configuration loading or client initialization fails. -/
def startupFails (h : Host) : Prop :=
  h.ReadInConfig (configSource h.cfgfile) ≠ none ∨
  ∃ e, h.New = Except.error e

/-- The remote calls that follow the entity lookup: the group lookup when the
entity check passed and a group is required, then one credential call when the
entity and group checks passed. -/
def laterCalls (Getenv : String → String) (c : Client) : List Call :=
  (if entityOK Getenv c ∧ Getenv "SFTPGO_NETAUTH_REQUIREGROUP" ≠ "" then
    [Call.EntityGroups (Getenv "SFTPGO_AUTHD_USERNAME")] else []) ++
  (if entityOK Getenv c ∧ groupOK Getenv c then
    [if Getenv "SFTPGO_AUTHD_PUBLIC_KEY" ≠ "" then
      Call.EntityKeys (Getenv "SFTPGO_AUTHD_USERNAME") "READ" "SSH" ""
     else Call.AuthEntity (Getenv "SFTPGO_AUTHD_USERNAME") (Getenv "SFTPGO_AUTHD_PASSWORD")]
   else [])

/-! ## Sample runs -/

/-- An environment with the five variables the hook reads. -/
def mkEnv (username password publickey requireGroup homedir : String) : String → String :=
  fun name =>
    if name = "SFTPGO_AUTHD_USERNAME" then username
    else if name = "SFTPGO_AUTHD_PASSWORD" then password
    else if name = "SFTPGO_AUTHD_PUBLIC_KEY" then publickey
    else if name = "SFTPGO_NETAUTH_REQUIREGROUP" then requireGroup
    else if name = "SFTPGO_NETAUTH_HOMEDIR" then homedir
    else ""

/-- A gRPC status error with the given code. -/
def grpcError (code : Code) : Option GoError :=
  some { msg := "rpc error", grpc := some code }

/-- A service that knows one unlocked entity with the given number, groups
and SSH keys, and accepts exactly one password. -/
def mkClient (number : Int) (groups : List String) (sshKeys : List String)
    (secret : String) : Client where
  entityInfo := fun _ => (some { Number := some number, Meta := some { Locked := some false } }, none)
  entityGroups := fun _ => (groups.map fun g => { Name := some g }, none)
  entityKeys := fun _ _ _ _ => ([("SSH", sshKeys)], none)
  authEntity := fun _ pw => if pw = secret then none else grpcError Code.Unauthenticated

/-- A service that does not know the entity. -/
def unknownEntityClient : Client where
  entityInfo := fun _ => (none, grpcError Code.NotFound)
  entityGroups := fun _ => ([{ Name := some "ops" }], none)
  entityKeys := fun _ _ _ _ => ([("SSH", ["ssh-ed25519 AAAA"])], none)
  authEntity := fun _ _ => none


/-- A run started with `--config /nonexistent.toml`: reading the
configuration fails. -/
def missingConfigHost : Host where
  cfgfile := "/nonexistent.toml"
  Getenv := mkEnv "alice" "s3cret" "" "" "/home"
  ReadInConfig := fun _ =>
    some { msg := "open /nonexistent.toml: no such file or directory" }
  New := Except.ok (mkClient 1000 [] [] "s3cret")

/-- A run in which the configuration is read and `netauth.New()` fails. -/
def clientFailureHost : Host where
  Getenv := mkEnv "alice" "s3cret" "" "" "/home"
  ReadInConfig := fun _ => none
  New := Except.error { msg := "no server configured" }

/-- A run in which startup succeeds and the password is wrong. -/
def wrongPasswordHost : Host where
  Getenv := mkEnv "alice" "guess" "" "" "/home"
  ReadInConfig := fun _ => none
  New := Except.ok (mkClient 1000 [] [] "s3cret")

/-! ## Loops -/

theorem forIn_groupSet (groups : List Group) (init : List String) :
    (forIn groups init (fun group r =>
      (pure (ForInStep.yield (group.GetName :: r)) : Go _))) =
    pure ((groups.map Group.GetName).reverse ++ init) := by
  induction groups generalizing init with
  | nil => rfl
  | cons g gs ih =>
    simp only [List.forIn_cons, pure_bind, List.map_cons, List.reverse_cons, List.append_assoc,
      List.singleton_append]
    exact ih _

theorem forIn_found (keys : List String) (publickey : String) :
    (forIn keys false (fun k r =>
      (if k = publickey then pure (ForInStep.done true)
       else pure (ForInStep.yield r) : Go _))) =
    pure (decide (publickey ∈ keys)) := by
  induction keys with
  | nil => rfl
  | cons k ks ih =>
    simp only [List.forIn_cons, List.mem_cons]
    by_cases hk : k = publickey
    · simp [hk]
    · have hk' : ¬ publickey = k := fun h => hk h.symm
      simp only [hk, hk', if_false, pure_bind, false_or]
      exact ih

theorem len_pos_iff (s : String) : len s > 0 ↔ s ≠ "" := by
  obtain ⟨l⟩ := s
  cases l with
  | nil => simp [len, String.utf8ByteSize, String.utf8ByteSize.go]
  | cons a l =>
    have h := Char.utf8Size_pos a
    have h2 : (String.mk (a :: l)) ≠ "" := by
      intro h3
      have := congrArg String.data h3
      simp at this
    simp only [len, String.utf8ByteSize, String.utf8ByteSize.go, gt_iff_lt, ne_eq, h2,
      not_false_eq_true, iff_true]
    omega

theorem contains_groupSet (groups : List Group) (name : String) :
    ((groups.map Group.GetName).reverse ++ []).contains name = true ↔
      ∃ g ∈ groups, g.GetName = name := by
  simp

theorem doAuth_run (Getenv : String → String) (c : Client) (w : World) :
    (doAuth Getenv c w).2 =
      { stdout := w.stdout ++
          (if entityOK Getenv c ∧ groupOK Getenv c ∧ credentialOK Getenv c
            then allowPayload Getenv c else denyPayload),
        calls := w.calls ++ Call.EntityInfo (Getenv "SFTPGO_AUTHD_USERNAME") ::
          laterCalls Getenv c } := by
  unfold doAuth
  simp only [pure_bind, forIn_groupSet, forIn_found, bind_assoc]
  simp only [Client.EntityInfo, Client.EntityGroups, Client.EntityKeys, Client.AuthEntity, trace,
    dumpUser, write, bind, pure, StateT.bind, StateT.pure, modify, modifyGet,
    MonadStateOf.modifyGet, StateT.modifyGet, len_pos_iff, laterCalls, entityOK, groupOK,
    credentialOK, Bool.not_eq_true', ← Bool.not_eq_true, contains_groupSet]
  simp only [allowPayload, denyPayload, allowProfile]
  generalize jsonMarshal ⟨1, _, _, _, _, _, _⟩ ++ "\n" = allow
  generalize jsonMarshal ⟨0, _, _, _, _, _, _⟩ ++ "\n" = deny
  by_cases h1 : statusCode (c.entityInfo (Getenv "SFTPGO_AUTHD_USERNAME")).2 = Code.OK
  case neg => simp [h1, StateT.bind, StateT.modifyGet, StateT.pure, pure, bind]
  by_cases h2 : EntityMeta.GetLocked
      (Entity.GetMeta (c.entityInfo (Getenv "SFTPGO_AUTHD_USERNAME")).1) = true
  case pos => simp [h1, h2, StateT.bind, StateT.modifyGet, StateT.pure, pure, bind]
  by_cases h3 : Getenv "SFTPGO_NETAUTH_REQUIREGROUP" = "" <;>
  by_cases h4 : statusCode (c.entityGroups (Getenv "SFTPGO_AUTHD_USERNAME")).2 = Code.OK <;>
  by_cases h5 : ∃ g ∈ (c.entityGroups (Getenv "SFTPGO_AUTHD_USERNAME")).1,
      g.GetName = Getenv "SFTPGO_NETAUTH_REQUIREGROUP" <;>
  by_cases h6 : Getenv "SFTPGO_AUTHD_PUBLIC_KEY" = "" <;>
  by_cases h7 : statusCode (c.authEntity (Getenv "SFTPGO_AUTHD_USERNAME")
      (Getenv "SFTPGO_AUTHD_PASSWORD")) = Code.OK <;>
  by_cases h8 : statusCode (c.entityKeys (Getenv "SFTPGO_AUTHD_USERNAME")
      "READ" "SSH" "").2 = Code.OK <;>
  by_cases h9 : Getenv "SFTPGO_AUTHD_PUBLIC_KEY" ∈
      mapIndex (c.entityKeys (Getenv "SFTPGO_AUTHD_USERNAME") "READ" "SSH" "").1 "SSH" <;>
  simp [h1, h2, h3, h4, h5, h6, h7, h8, h9, StateT.bind, StateT.modifyGet, StateT.pure, pure, bind]

/-- From a fresh world, the output and the calls of `doAuth`. -/
theorem emitted_eq (Getenv : String → String) (c : Client) :
    emitted Getenv c =
      if entityOK Getenv c ∧ groupOK Getenv c ∧ credentialOK Getenv c
        then allowPayload Getenv c else denyPayload := by
  unfold emitted
  rw [doAuth_run]
  exact String.empty_append _

theorem called_eq (Getenv : String → String) (c : Client) :
    called Getenv c =
      Call.EntityInfo (Getenv "SFTPGO_AUTHD_USERNAME") :: laterCalls Getenv c := by
  unfold called
  rw [doAuth_run]
  rfl

/-! ## Shape of the JSON text -/

theorem intercalate_go_eq (acc sep : String) (xs : List String) :
    ∃ t, String.intercalate.go acc sep xs = acc ++ t := by
  induction xs generalizing acc with
  | nil => exact ⟨"", (String.append_empty acc).symm⟩
  | cons x xs ih =>
    obtain ⟨t, ht⟩ := ih (acc ++ sep ++ x)
    refine ⟨sep ++ x ++ t, ?_⟩
    rw [String.intercalate.go, ht]
    simp only [String.append_assoc]

theorem encodeObject_cons (m : String × String) (ms : List (String × String)) :
    ∃ t, encodeObject (m :: ms) = "\x7b" ++ (encodeString m.1 ++ (":" ++ (m.2 ++ t))) := by
  obtain ⟨t, ht⟩ := intercalate_go_eq (encodeString m.1 ++ ":" ++ m.2) ","
    (ms.map fun kv => encodeString kv.1 ++ ":" ++ kv.2)
  refine ⟨t ++ "\x7d", ?_⟩
  rw [encodeObject, List.map_cons, String.intercalate, ht]
  simp only [String.append_assoc]

theorem jsonMarshal_head (u : minimalSFTPGoUser) :
    ∃ t, jsonMarshal u = "\x7b" ++ t :=
  ⟨_, String.append_assoc _ _ _⟩

theorem allowPayload_head (Getenv : String → String) (c : Client) :
    ∃ t, allowPayload Getenv c = "\x7b\"status\":" ++ t := by
  obtain ⟨t, ht⟩ := encodeObject_cons ("status", (JVal.num 1).encode)
    ((([("username", JVal.str (Getenv "SFTPGO_AUTHD_USERNAME"))] ++
      (if len (allowProfile Getenv (c.entityInfo (Getenv "SFTPGO_AUTHD_USERNAME")).1).HomeDir = 0
        then [] else [("home_dir", JVal.str
          (allowProfile Getenv (c.entityInfo (Getenv "SFTPGO_AUTHD_USERNAME")).1).HomeDir)]) ++
      (if (allowProfile Getenv (c.entityInfo (Getenv "SFTPGO_AUTHD_USERNAME")).1).UID = 0
        then [] else [("uid", JVal.num
          (allowProfile Getenv (c.entityInfo (Getenv "SFTPGO_AUTHD_USERNAME")).1).UID)]) ++
      [("permissions", JVal.obj [("/", some ["*"])]), ("filters", JVal.obj [])])).map
        fun kv => (kv.1, kv.2.encode))
  refine ⟨(JVal.num 1).encode ++ t ++ "\n", ?_⟩
  have h : jsonMarshal (allowProfile Getenv (c.entityInfo (Getenv "SFTPGO_AUTHD_USERNAME")).1) =
      "\x7b" ++ (encodeString "status" ++ (":" ++ ((JVal.num 1).encode ++ t))) := by
    rw [← ht]
    simp [jsonMarshal, minimalSFTPGoUser.members, allowProfile, userFilters.members]
  rw [allowPayload, h]
  have h2 : encodeString "status" = "\"status\"" := by decide
  rw [h2]
  simp only [String.append_assoc]
  rfl

theorem allowPayload_ne_deny (Getenv : String → String) (c : Client) :
    allowPayload Getenv c ≠ denyPayload := by
  obtain ⟨t, ht⟩ := allowPayload_head Getenv c
  intro h
  have h2 := congrArg (fun s => s.data.get? 2) (ht.symm.trans h)
  have h3 : denyPayload.data.get? 2 = some 'u' := by decide
  simp only [h3, String.data_append] at h2
  simp at h2

/-! ## The decision -/

/-- Claim C1. For every environment and every set of service answers, `doAuth`
emits the Allow profile exactly when (1) the entity lookup returns OK and the
entity is not locked, (2) no group is required or the group lookup returns OK
and some returned group has exactly the required name, and (3) with a public
key the key lookup returns OK and the key is in the returned SSH list, without
one the password check returns OK; in every other case it emits the Deny
payload. -/
theorem doAuth_allow_iff (Getenv : String → String) (c : Client) :
    (emitted Getenv c = allowPayload Getenv c ↔
      entityOK Getenv c ∧ groupOK Getenv c ∧ credentialOK Getenv c) ∧
    (emitted Getenv c = denyPayload ↔
      ¬(entityOK Getenv c ∧ groupOK Getenv c ∧ credentialOK Getenv c)) := by
  rw [emitted_eq]
  by_cases h : entityOK Getenv c ∧ groupOK Getenv c ∧ credentialOK Getenv c
  · simp only [h, if_true, and_self, iff_true, not_true_eq_false, iff_false, true_and]
    exact allowPayload_ne_deny Getenv c
  · simp only [h, if_false, iff_false, not_false_eq_true, iff_true, and_true]
    exact fun h2 => allowPayload_ne_deny Getenv c h2.symm

/-- Scenario C: no public key, no required group, the password matches. -/
theorem doAuth_allow_iff_witness :
    emitted (mkEnv "alice" "s3cret" "" "" "/home") (mkClient 1000 [] [] "s3cret") =
      "\x7b\"status\":1,\"username\":\"alice\",\"home_dir\":\"/home/alice\",\"uid\":1000,\"permissions\":\x7b\"/\":[\"*\"]\x7d,\"filters\":\x7b\x7d\x7d\n" :=
  (doAuth_allow_iff (mkEnv "alice" "s3cret" "" "" "/home")
    (mkClient 1000 [] [] "s3cret")).1.mpr (by decide)

/-- Claim C2. When the entity lookup returns a status other than OK, or the
returned entity is locked, `doAuth` emits the Deny payload, whatever the
password, the public key, the required group and the answers to the group,
key and password requests are. -/
theorem entity_failure_denies (Getenv : String → String) (c : Client)
    (h : statusCode (c.entityInfo (Getenv "SFTPGO_AUTHD_USERNAME")).2 ≠ Code.OK ∨
      EntityMeta.GetLocked
        (Entity.GetMeta (c.entityInfo (Getenv "SFTPGO_AUTHD_USERNAME")).1) = true) :
    emitted Getenv c = denyPayload := by
  rw [emitted_eq, if_neg]
  rintro ⟨⟨h1, h2⟩, -⟩
  rcases h with h | h
  · exact h h1
  · rw [h2] at h
    exact Bool.false_ne_true h

/-- Scenario D: the lookup returns NotFound while every later answer would
succeed. -/
theorem entity_failure_denies_witness :
    statusCode (unknownEntityClient.entityInfo
      (mkEnv "ghost" "pw" "ssh-ed25519 AAAA" "ops" "/home" "SFTPGO_AUTHD_USERNAME")).2 = Code.NotFound ∧
    emitted (mkEnv "ghost" "pw" "ssh-ed25519 AAAA" "ops" "/home") unknownEntityClient =
      "\x7b\"username\":\"\",\"permissions\":null,\"filters\":\x7b\x7d\x7d\n" :=
  ⟨by decide,
   entity_failure_denies (mkEnv "ghost" "pw" "ssh-ed25519 AAAA" "ops" "/home")
    unknownEntityClient (Or.inl (by decide))⟩

/-- Claim C3. With a non-empty required group whose name is not exactly equal
to the name of any group the group lookup returns, `doAuth` emits the Deny
payload, even when the password check or the key match would succeed; the
comparison is case-sensitive. -/
theorem missing_group_denies (Getenv : String → String) (c : Client)
    (hreq : Getenv "SFTPGO_NETAUTH_REQUIREGROUP" ≠ "")
    (hno : ∀ g ∈ (c.entityGroups (Getenv "SFTPGO_AUTHD_USERNAME")).1,
      g.GetName ≠ Getenv "SFTPGO_NETAUTH_REQUIREGROUP") :
    emitted Getenv c = denyPayload := by
  rw [emitted_eq, if_neg]
  rintro ⟨-, hg, -⟩
  rcases hg with hg | ⟨-, g, hg, hname⟩
  · exact hreq hg
  · exact hno g hg hname

/-- Required group `ops`, membership `Ops` only, a correct password: Deny. -/
theorem missing_group_denies_witness :
    credentialOK (mkEnv "alice" "s3cret" "" "ops" "/home") (mkClient 1000 ["Ops"] [] "s3cret") ∧
    emitted (mkEnv "alice" "s3cret" "" "ops" "/home") (mkClient 1000 ["Ops"] [] "s3cret") =
      denyPayload :=
  ⟨by decide,
   missing_group_denies (mkEnv "alice" "s3cret" "" "ops" "/home")
    (mkClient 1000 ["Ops"] [] "s3cret") (by decide) (by decide)⟩

/-- Claim C4. The two credential factors exclude each other. With a non-empty
public key, `AuthEntity` is not among the calls, and a run that differs only
in the password and in the answer of the password check emits the same output.
With an empty public key, `EntityKeys` is not among the calls, and a run that
differs only in the answer of the key lookup emits the same output. -/
theorem credential_factors_exclusive (Getenv : String → String) (c : Client) :
    (Getenv "SFTPGO_AUTHD_PUBLIC_KEY" ≠ "" →
      (∀ id secret, Call.AuthEntity id secret ∉ called Getenv c) ∧
      ∀ (Getenv' : String → String) (c' : Client),
        (∀ name, name ≠ "SFTPGO_AUTHD_PASSWORD" → Getenv' name = Getenv name) →
        c'.entityInfo = c.entityInfo → c'.entityGroups = c.entityGroups →
        c'.entityKeys = c.entityKeys →
        emitted Getenv' c' = emitted Getenv c ∧ called Getenv' c' = called Getenv c) ∧
    (Getenv "SFTPGO_AUTHD_PUBLIC_KEY" = "" →
      (∀ id action kind key, Call.EntityKeys id action kind key ∉ called Getenv c) ∧
      ∀ c' : Client,
        c'.entityInfo = c.entityInfo → c'.entityGroups = c.entityGroups →
        c'.authEntity = c.authEntity →
        emitted Getenv c' = emitted Getenv c ∧ called Getenv c' = called Getenv c) := by
  refine ⟨fun hpk => ⟨?_, ?_⟩, fun hpk => ⟨?_, ?_⟩⟩
  · intro id secret
    rw [called_eq]
    simp only [laterCalls, hpk, ne_eq, not_false_eq_true, if_true]
    split_ifs <;> simp
  · intro Getenv' c' hG h1 h2 h3
    have hu : Getenv' "SFTPGO_AUTHD_USERNAME" = Getenv "SFTPGO_AUTHD_USERNAME" :=
      hG _ (by decide)
    have hk : Getenv' "SFTPGO_AUTHD_PUBLIC_KEY" = Getenv "SFTPGO_AUTHD_PUBLIC_KEY" :=
      hG _ (by decide)
    have hr : Getenv' "SFTPGO_NETAUTH_REQUIREGROUP" = Getenv "SFTPGO_NETAUTH_REQUIREGROUP" :=
      hG _ (by decide)
    have hh : Getenv' "SFTPGO_NETAUTH_HOMEDIR" = Getenv "SFTPGO_NETAUTH_HOMEDIR" :=
      hG _ (by decide)
    rw [emitted_eq, emitted_eq, called_eq, called_eq]
    simp only [laterCalls, entityOK, groupOK, credentialOK, allowPayload, allowProfile, hu, hk,
      hr, hh, h1, h2, h3, hpk, ne_eq, not_false_eq_true, if_true, and_self]
  · intro id action kind key
    rw [called_eq]
    simp only [laterCalls, hpk, ne_eq, not_true_eq_false, if_false]
    split_ifs <;> simp
  · intro c' h1 h2 h3
    rw [emitted_eq, emitted_eq, called_eq, called_eq]
    simp only [laterCalls, entityOK, groupOK, credentialOK, allowPayload, allowProfile,
      h1, h2, h3, hpk, ne_eq, not_true_eq_false, if_false, and_self]

/-- A password run and a key run that differ as the claim describes. -/
theorem credential_factors_exclusive_witness :
    emitted (mkEnv "alice" "wrong" "ssh-ed25519 AAAA" "" "/home")
        (mkClient 1000 [] ["ssh-ed25519 AAAA"] "other") =
      emitted (mkEnv "alice" "s3cret" "ssh-ed25519 AAAA" "" "/home")
        (mkClient 1000 [] ["ssh-ed25519 AAAA"] "s3cret") ∧
    emitted (mkEnv "alice" "s3cret" "" "" "/home") (mkClient 1000 [] [] "s3cret") =
      emitted (mkEnv "alice" "s3cret" "" "" "/home")
        (mkClient 1000 [] ["ssh-ed25519 AAAA"] "s3cret") :=
  ⟨(((credential_factors_exclusive (mkEnv "alice" "s3cret" "ssh-ed25519 AAAA" "" "/home")
      (mkClient 1000 [] ["ssh-ed25519 AAAA"] "s3cret")).1 (by decide)).2
      (mkEnv "alice" "wrong" "ssh-ed25519 AAAA" "" "/home")
      (mkClient 1000 [] ["ssh-ed25519 AAAA"] "other")
      (fun name hname => by simp [mkEnv, hname]) rfl rfl rfl).1,
   (((credential_factors_exclusive (mkEnv "alice" "s3cret" "" "" "/home")
      (mkClient 1000 [] ["ssh-ed25519 AAAA"] "s3cret")).2 (by decide)).2
      (mkClient 1000 [] [] "s3cret") rfl rfl rfl).1⟩

/-! ## The Allow profile -/

theorem len_eq_zero_iff (s : String) : len s = 0 ↔ s = "" := by
  have h := len_pos_iff s
  constructor
  · intro h0
    by_contra hne
    have := h.mpr hne
    omega
  · intro h0
    by_contra hne
    exact h.mp (by omega) h0

theorem emitted_of_not_deny (Getenv : String → String) (c : Client)
    (h : emitted Getenv c ≠ denyPayload) :
    emitted Getenv c = allowPayload Getenv c := by
  rw [emitted_eq] at h ⊢
  split_ifs at h ⊢ with h1
  · rfl
  · exact absurd rfl h

/-! ### The joined path -/

theorem splitPath_ne_nil (l : List Char) : splitPath l ≠ [] := by
  cases l with
  | nil => simp [splitPath]
  | cons c cs =>
    rw [splitPath]
    split
    · simp
    · split_ifs <;> simp

theorem splitPath_append (a b : List Char) :
    splitPath (a ++ '/' :: b) = splitPath a ++ splitPath b := by
  induction a with
  | nil =>
    obtain ⟨e, es, h⟩ := List.exists_cons_of_ne_nil (splitPath_ne_nil b)
    simp [splitPath, h]
  | cons c a ih =>
    obtain ⟨e, es, h⟩ := List.exists_cons_of_ne_nil (splitPath_ne_nil a)
    rw [List.cons_append, splitPath, ih, h, splitPath, h]
    simp only [List.cons_append]
    split_ifs <;> rfl

theorem intercalate_go_data (acc sep : String) (xs : List String) :
    (String.intercalate.go acc sep xs).data =
      acc.data ++ xs.flatMap fun x => sep.data ++ x.data := by
  induction xs generalizing acc with
  | nil => simp [String.intercalate.go]
  | cons x xs ih =>
    rw [String.intercalate.go, ih]
    simp [String.data_append]

theorem intercalate_data (sep x : String) (xs : List String) :
    (String.intercalate sep (x :: xs)).data =
      x.data ++ xs.flatMap fun y => sep.data ++ y.data := by
  rw [String.intercalate, intercalate_go_data]

theorem intercalate_splitPath (l : List Char) :
    (String.intercalate "/" (splitPath l)).data = l := by
  induction l with
  | nil => rfl
  | cons c cs ih =>
    obtain ⟨e, es, h⟩ := List.exists_cons_of_ne_nil (splitPath_ne_nil cs)
    rw [h, intercalate_data] at ih
    rw [splitPath, h]
    simp only
    split_ifs with hc
    · rw [intercalate_data, List.flatMap_cons, List.append_assoc, ih, hc]
      rfl
    · rw [intercalate_data]
      exact congrArg (c :: ·) ih

theorem foldl_cleanStep_plain (rooted : Bool) (es out : List String)
    (h : es.all plainElement = true) :
    es.foldl (cleanStep rooted) out = es.reverse ++ out := by
  induction es generalizing out with
  | nil => rfl
  | cons e es ih =>
    simp only [List.all_cons, Bool.and_eq_true] at h
    obtain ⟨he, hes⟩ := h
    simp only [plainElement, Bool.and_eq_true, decide_eq_true_eq] at he
    obtain ⟨⟨h1, h2⟩, h3⟩ := he
    rw [List.foldl_cons, ih _ hes]
    simp [cleanStep, h1, h2, h3]

theorem all_plain_append (xs ys : List String) (hx : xs.all plainElement = true)
    (hy : ys.all plainElement = true) : (xs ++ ys).all plainElement = true := by
  simp only [List.all_append, hx, hy, Bool.and_self]

/-- On plain paths the join is textual: for an absolute base directory and a
relative name made of plain elements, `filepath.Join` returns the base, a
separator and the name. -/
theorem filepathJoin_plain (base name : String) (hb : plainAbsolute base = true)
    (hn : plainRelative name = true) :
    filepathJoin [base, name] = base ++ "/" ++ name := by
  obtain ⟨b⟩ := base
  obtain ⟨n⟩ := name
  cases b with
  | nil => simp [plainAbsolute] at hb
  | cons c rest =>
    simp only [plainAbsolute, Bool.and_eq_true, decide_eq_true_eq] at hb
    obtain ⟨hc, hrest⟩ := hb
    subst hc
    have hne : (String.mk ('/' :: rest)) ≠ "" := by
      intro h
      have := congrArg String.data h
      simp at this
    have hpath : String.intercalate "/" [String.mk ('/' :: rest), String.mk n] =
        String.mk ('/' :: (rest ++ '/' :: n)) := by
      apply String.ext
      rw [intercalate_data]
      simp
    have hne2 : (String.mk ('/' :: (rest ++ '/' :: n))) ≠ "" := by
      intro h
      have := congrArg String.data h
      simp at this
    have hsplit : splitPath ('/' :: (rest ++ '/' :: n)) =
        "" :: (splitPath rest ++ splitPath n) := by
      obtain ⟨e, es, h⟩ := List.exists_cons_of_ne_nil (splitPath_ne_nil (rest ++ '/' :: n))
      rw [splitPath, h]
      simp only [if_true]
      rw [← h, splitPath_append]
    obtain ⟨e, es, he⟩ := List.exists_cons_of_ne_nil (splitPath_ne_nil rest)
    obtain ⟨f, fs, hf⟩ := List.exists_cons_of_ne_nil (splitPath_ne_nil n)
    have hfold : (splitPath ('/' :: (rest ++ '/' :: n))).foldl (cleanStep true) [] =
        (splitPath rest ++ splitPath n).reverse := by
      rw [hsplit, List.foldl_cons]
      have : cleanStep true [] "" = [] := by simp [cleanStep]
      rw [this, foldl_cleanStep_plain _ _ _ (all_plain_append _ _ hrest hn), List.append_nil]
    rw [filepathJoin, if_neg hne, hpath, Clean, if_neg hne2]
    simp only [List.head?_cons, decide_True, hfold, List.reverse_reverse, if_true]
    apply String.ext
    have h1 := intercalate_splitPath rest
    have h2 := intercalate_splitPath n
    rw [he, intercalate_data] at h1
    rw [hf, intercalate_data] at h2
    rw [he, hf, List.cons_append, String.data_append, intercalate_data, List.flatMap_append,
      List.flatMap_cons]
    simp only [String.data_append, List.append_assoc]
    rw [h2, ← List.append_assoc e.data, h1]
    rfl

theorem splitPath_no_slash (l : List Char) : ∀ e ∈ splitPath l, '/' ∉ e.data := by
  induction l with
  | nil => simp [splitPath]
  | cons c cs ih =>
    obtain ⟨e, es, h⟩ := List.exists_cons_of_ne_nil (splitPath_ne_nil cs)
    rw [h] at ih
    rw [splitPath, h]
    simp only
    intro x hx
    split_ifs at hx with hc
    · rcases List.mem_cons.mp hx with rfl | hx
      · simp
      · exact ih x hx
    · rcases List.mem_cons.mp hx with rfl | hx
      · have := ih e (List.mem_cons_self _ _)
        simp only [List.mem_cons, not_or]
        exact ⟨fun h => hc h.symm, this⟩
      · exact ih x (List.mem_cons_of_mem _ hx)

theorem splitPath_of_no_slash (l : List Char) (h : '/' ∉ l) : splitPath l = [String.mk l] := by
  induction l with
  | nil => rfl
  | cons c cs ih =>
    simp only [List.mem_cons, not_or] at h
    rw [splitPath, ih h.2]
    simp only
    rw [if_neg (fun hc => h.1 hc.symm)]

theorem splitPath_intercalate (x : String) (xs : List String)
    (h : ∀ e ∈ x :: xs, '/' ∉ e.data) :
    splitPath (String.intercalate "/" (x :: xs)).data = x :: xs := by
  induction xs generalizing x with
  | nil =>
    rw [intercalate_data, List.flatMap_nil, List.append_nil,
      splitPath_of_no_slash _ (h x (List.mem_cons_self _ _))]
  | cons y ys ih =>
    have hy := ih y (fun e he => h e (List.mem_cons_of_mem _ he))
    rw [intercalate_data] at hy
    rw [intercalate_data, List.flatMap_cons]
    show splitPath (x.data ++ ('/' :: (y.data ++ _))) = _
    rw [splitPath_append, hy, splitPath_of_no_slash _ (h x (List.mem_cons_self _ _))]
    rfl

theorem cleanStep_rooted_plain (out : List String) (e : String)
    (hout : ∀ x ∈ out, plainElement x = true ∧ '/' ∉ x.data) (he : '/' ∉ e.data) :
    ∀ x ∈ cleanStep true out e, plainElement x = true ∧ '/' ∉ x.data := by
  unfold cleanStep
  by_cases h1 : e = "" ∨ e = "."
  · rw [if_pos h1]
    exact hout
  · rw [if_neg h1]
    by_cases h2 : e = ".."
    · rw [if_pos h2]
      cases out with
      | nil => simp
      | cons top rest =>
        simp only
        by_cases h3 : top = ".."
        · have := (hout top (List.mem_cons_self _ _)).1
          rw [h3] at this
          simp [plainElement] at this
        · rw [if_neg h3]
          exact fun x hx => hout x (List.mem_cons_of_mem _ hx)
    · rw [if_neg h2]
      intro x hx
      rcases List.mem_cons.mp hx with rfl | hx
      · simp only [not_or] at h1
        exact ⟨by simp [plainElement, h1.1, h1.2, h2], he⟩
      · exact hout x hx

theorem foldl_cleanStep_rooted (es out : List String)
    (hout : ∀ x ∈ out, plainElement x = true ∧ '/' ∉ x.data)
    (hes : ∀ e ∈ es, '/' ∉ e.data) :
    ∀ x ∈ es.foldl (cleanStep true) out, plainElement x = true ∧ '/' ∉ x.data := by
  induction es generalizing out with
  | nil => exact hout
  | cons e es ih =>
    rw [List.foldl_cons]
    exact ih _ (cleanStep_rooted_plain out e hout (hes e (List.mem_cons_self _ _)))
      (fun x hx => hes x (List.mem_cons_of_mem _ hx))

/-- Under an absolute base directory the joined path is absolute and has no
`.` or `..` element, whatever the name is. -/
theorem filepathJoin_absolute (base name : String) (hb : base.data.head? = some '/') :
    (filepathJoin [base, name]).data.head? = some '/' ∧
    ∀ e ∈ splitPath (filepathJoin [base, name]).data, e ≠ "." ∧ e ≠ ".." := by
  obtain ⟨b⟩ := base
  obtain ⟨n⟩ := name
  cases b with
  | nil => simp at hb
  | cons c rest =>
    simp only [List.head?_cons, Option.some.injEq] at hb
    subst hb
    have hne : (String.mk ('/' :: rest)) ≠ "" := by
      intro h
      have := congrArg String.data h
      simp at this
    have hpath : String.intercalate "/" [String.mk ('/' :: rest), String.mk n] =
        String.mk ('/' :: (rest ++ '/' :: n)) := by
      apply String.ext
      rw [intercalate_data]
      simp
    have hne2 : (String.mk ('/' :: (rest ++ '/' :: n))) ≠ "" := by
      intro h
      have := congrArg String.data h
      simp at this
    have hinv := foldl_cleanStep_rooted (splitPath ('/' :: (rest ++ '/' :: n))) []
      (by simp) (splitPath_no_slash _)
    rw [filepathJoin, if_neg hne, hpath, Clean, if_neg hne2]
    simp only [List.head?_cons, decide_True, if_true]
    generalize (splitPath ('/' :: (rest ++ '/' :: n))).foldl (cleanStep true) [] = out at hinv
    refine ⟨rfl, ?_⟩
    have hrev : ∀ x ∈ out.reverse, plainElement x = true ∧ '/' ∉ x.data :=
      fun x hx => hinv x (List.mem_reverse.mp hx)
    cases hr : out.reverse with
    | nil =>
      intro e he
      have : e = "" := by
        revert he
        simp [String.intercalate, splitPath]
      subst this
      exact ⟨by decide, by decide⟩
    | cons x xs =>
      rw [hr] at hrev
      intro e he
      rw [String.data_append] at he
      have hs : splitPath ("/".data ++ (String.intercalate "/" (x :: xs)).data) =
          "" :: x :: xs := by
        show splitPath ('/' :: (String.intercalate "/" (x :: xs)).data) = _
        rw [splitPath, splitPath_intercalate x xs (fun e he => (hrev e he).2)]
        rfl
      rw [hs] at he
      rcases List.mem_cons.mp he with rfl | he
      · exact ⟨by decide, by decide⟩
      · have := (hrev e he).1
        simp only [plainElement, Bool.and_eq_true, decide_eq_true_eq] at this
        exact ⟨this.1.2, this.2⟩

/-- The join is lexical: separators are added, and `.` and `..` elements of
the user name are resolved against the base directory. -/
theorem join_cleans :
    filepathJoin ["/home", "alice"] = "/home/alice" ∧
    filepathJoin ["/home/", "alice"] = "/home/alice" ∧
    filepathJoin ["/home", "a/./b"] = "/home/a/b" ∧
    filepathJoin ["", "alice"] = "alice" := by
  decide

/-- Against claim C5 as stated. The user name `../etc` under the base `/home`
is allowed by password; the home directory printed is `/etc`, not the base
followed by a separator and the exact user name, and the output is not the
profile the claim describes. The user names `alice` and `bob/../alice` get
the same home directory. -/
theorem home_dir_not_exact_username :
    emitted (mkEnv "../etc" "s3cret" "" "" "/home") (mkClient 1000 [] [] "s3cret") =
      "\x7b\"status\":1,\"username\":\"../etc\",\"home_dir\":\"/etc\",\"uid\":1000,\"permissions\":\x7b\"/\":[\"*\"]\x7d,\"filters\":\x7b\x7d\x7d\n" ∧
    filepathJoin ["/home", "../etc"] ≠ "/home" ++ "/" ++ "../etc" ∧
    emitted (mkEnv "../etc" "s3cret" "" "" "/home") (mkClient 1000 [] [] "s3cret") ≠
      jsonMarshal { Status := 1, Username := "../etc", HomeDir := "/home" ++ "/" ++ "../etc",
                    UID := 1000, Permissions := some [("/", some ["*"])] } ++ "\n" ∧
    filepathJoin ["/home", "alice"] = filepathJoin ["/home", "bob/../alice"] := by
  decide

/-- Claim C5, amended. Whenever `doAuth` allows, the user name of the emitted
profile is the given user name, unchanged, and its home directory is
`filepath.Join` of the configured base directory and the user name. When the
base is an absolute path of plain elements and every element of the user name
is plain (not empty, not `.`, not `..`), the home directory is exactly the
base, a separator and the user name. Under any absolute base the home
directory is an absolute path with no `.` or `..` element. -/
theorem allow_home_dir_joined (Getenv : String → String) (c : Client)
    (h : emitted Getenv c ≠ denyPayload) :
    ∃ u : minimalSFTPGoUser,
      emitted Getenv c = jsonMarshal u ++ "\n" ∧
      u.Status = 1 ∧
      u.Username = Getenv "SFTPGO_AUTHD_USERNAME" ∧
      ("username", JVal.str (Getenv "SFTPGO_AUTHD_USERNAME")) ∈ u.members ∧
      u.HomeDir =
        filepathJoin [Getenv "SFTPGO_NETAUTH_HOMEDIR", Getenv "SFTPGO_AUTHD_USERNAME"] ∧
      (plainAbsolute (Getenv "SFTPGO_NETAUTH_HOMEDIR") = true →
        plainRelative (Getenv "SFTPGO_AUTHD_USERNAME") = true →
        u.HomeDir =
          Getenv "SFTPGO_NETAUTH_HOMEDIR" ++ "/" ++ Getenv "SFTPGO_AUTHD_USERNAME") ∧
      ((Getenv "SFTPGO_NETAUTH_HOMEDIR").data.head? = some '/' →
        u.HomeDir.data.head? = some '/' ∧
        ∀ e ∈ splitPath u.HomeDir.data, e ≠ "." ∧ e ≠ "..") :=
  ⟨allowProfile Getenv (c.entityInfo (Getenv "SFTPGO_AUTHD_USERNAME")).1,
    emitted_of_not_deny Getenv c h, rfl, rfl,
    by simp [minimalSFTPGoUser.members, allowProfile],
    rfl,
    fun hb hn => filepathJoin_plain _ _ hb hn,
    fun hb => filepathJoin_absolute _ _ hb⟩

/-- A user name with special characters, allowed by password: the home
directory is the base, a separator and the user name. -/
theorem allow_home_dir_joined_witness :
    ∃ u : minimalSFTPGoUser,
      emitted (mkEnv "j.doe-x_y@example/org" "s3cret" "" "" "/srv/sftp")
        (mkClient 1000 [] [] "s3cret") = jsonMarshal u ++ "\n" ∧
      u.Username = "j.doe-x_y@example/org" ∧
      u.HomeDir = "/srv/sftp/j.doe-x_y@example/org" :=
  (allow_home_dir_joined (mkEnv "j.doe-x_y@example/org" "s3cret" "" "" "/srv/sftp")
    (mkClient 1000 [] [] "s3cret") (by decide)).imp
    fun _ hu => ⟨hu.1, hu.2.2.1, hu.2.2.2.2.2.1 (by decide) (by decide)⟩

/-- Against claim C6 as stated. An unlocked entity whose number is 0 is allowed
by password; the object printed has no `uid` member, and no profile whose uid
is the entity number has one. -/
theorem uid_zero_omitted :
    emitted (mkEnv "alice" "s3cret" "" "" "/home") (mkClient 0 [] [] "s3cret") =
      "\x7b\"status\":1,\"username\":\"alice\",\"home_dir\":\"/home/alice\",\"permissions\":\x7b\"/\":[\"*\"]\x7d,\"filters\":\x7b\x7d\x7d\n" ∧
    ¬ ∃ u : minimalSFTPGoUser,
      u.UID = Entity.GetNumber ((mkClient 0 [] [] "s3cret").entityInfo "alice").1 ∧
      ("uid", JVal.num u.UID) ∈ u.members := by
  refine ⟨by decide, ?_⟩
  rintro ⟨u, hu, hmem⟩
  have h0 : u.UID = 0 := hu
  rw [h0] at hmem
  simp only [minimalSFTPGoUser.members, h0, if_true, List.append_nil, List.mem_append,
    List.mem_singleton, List.mem_cons] at hmem
  split_ifs at hmem <;> simp at hmem

/-- Claim C6, amended. Whenever `doAuth` allows, the emitted profile has status 1,
the given user name, the joined home directory, uid equal to the entity
number, gid 0, permissions exactly the one-entry map from the root path to the
wildcard, and no denied login methods. The JSON object has the members
`status`, `username` and `permissions` with those values, `home_dir` when the
joined path is not empty, and `uid` when the entity number is not 0. -/
theorem allow_profile_fields (Getenv : String → String) (c : Client)
    (h : emitted Getenv c ≠ denyPayload) :
    ∃ u : minimalSFTPGoUser,
      emitted Getenv c = jsonMarshal u ++ "\n" ∧
      u.Status = 1 ∧
      u.Username = Getenv "SFTPGO_AUTHD_USERNAME" ∧
      u.HomeDir =
        filepathJoin [Getenv "SFTPGO_NETAUTH_HOMEDIR", Getenv "SFTPGO_AUTHD_USERNAME"] ∧
      u.UID = Entity.GetNumber (c.entityInfo (Getenv "SFTPGO_AUTHD_USERNAME")).1 ∧
      u.GID = 0 ∧
      u.Permissions = some [("/", some ["*"])] ∧
      u.Filters.DeniedLoginMethods = [] ∧
      ("status", JVal.num 1) ∈ u.members ∧
      ("username", JVal.str u.Username) ∈ u.members ∧
      ("permissions", JVal.obj [("/", some ["*"])]) ∈ u.members ∧
      (u.HomeDir ≠ "" → ("home_dir", JVal.str u.HomeDir) ∈ u.members) ∧
      (u.UID ≠ 0 → ("uid", JVal.num u.UID) ∈ u.members) := by
  refine ⟨allowProfile Getenv (c.entityInfo (Getenv "SFTPGO_AUTHD_USERNAME")).1,
    emitted_of_not_deny Getenv c h, rfl, rfl, rfl, rfl, rfl, rfl, rfl, ?_, ?_, ?_, ?_, ?_⟩
  · simp [minimalSFTPGoUser.members, allowProfile]
  · simp [minimalSFTPGoUser.members, allowProfile]
  · simp [minimalSFTPGoUser.members, allowProfile]
  · intro hne
    simp [minimalSFTPGoUser.members, len_eq_zero_iff, hne]
  · intro hne
    simp [minimalSFTPGoUser.members, hne]

/-- Scenario A: a key that is in the SSH list; uid is the entity number. -/
theorem allow_profile_fields_witness :
    emitted (mkEnv "alice" "" "ssh-ed25519 AAAA" "" "/home")
        (mkClient 1000 [] ["ssh-rsa BBBB", "ssh-ed25519 AAAA"] "s3cret") =
      "\x7b\"status\":1,\"username\":\"alice\",\"home_dir\":\"/home/alice\",\"uid\":1000,\"permissions\":\x7b\"/\":[\"*\"]\x7d,\"filters\":\x7b\x7d\x7d\n" ∧
    ∃ u : minimalSFTPGoUser,
      emitted (mkEnv "alice" "" "ssh-ed25519 AAAA" "" "/home")
        (mkClient 1000 [] ["ssh-rsa BBBB", "ssh-ed25519 AAAA"] "s3cret") =
          jsonMarshal u ++ "\n" ∧
      u.Status = 1 ∧
      u.Username = "alice" ∧
      u.HomeDir = filepathJoin ["/home", "alice"] ∧
      u.UID = 1000 ∧
      u.GID = 0 ∧
      u.Permissions = some [("/", some ["*"])] ∧
      u.Filters.DeniedLoginMethods = [] ∧
      ("status", JVal.num 1) ∈ u.members ∧
      ("username", JVal.str u.Username) ∈ u.members ∧
      ("permissions", JVal.obj [("/", some ["*"])]) ∈ u.members ∧
      (u.HomeDir ≠ "" → ("home_dir", JVal.str u.HomeDir) ∈ u.members) ∧
      (u.UID ≠ 0 → ("uid", JVal.num u.UID) ∈ u.members) :=
  ⟨by decide,
   allow_profile_fields (mkEnv "alice" "" "ssh-ed25519 AAAA" "" "/home")
    (mkClient 1000 [] ["ssh-rsa BBBB", "ssh-ed25519 AAAA"] "s3cret") (by decide)⟩

/-! ## The Deny payload -/

/-- Claim C7. On every failure path of `doAuth` (entity lookup error, locked
entity, group lookup error, missing group, key lookup error, key mismatch,
password check not OK) the output is the encoding of the zeroed profile: the
same bytes whichever check failed, with no `status` member and an empty
`username`. -/
theorem failure_output_uniform (Getenv : String → String) (c : Client)
    (h : statusCode (c.entityInfo (Getenv "SFTPGO_AUTHD_USERNAME")).2 ≠ Code.OK ∨
      EntityMeta.GetLocked
        (Entity.GetMeta (c.entityInfo (Getenv "SFTPGO_AUTHD_USERNAME")).1) = true ∨
      (Getenv "SFTPGO_NETAUTH_REQUIREGROUP" ≠ "" ∧
        statusCode (c.entityGroups (Getenv "SFTPGO_AUTHD_USERNAME")).2 ≠ Code.OK) ∨
      (Getenv "SFTPGO_NETAUTH_REQUIREGROUP" ≠ "" ∧
        ∀ g ∈ (c.entityGroups (Getenv "SFTPGO_AUTHD_USERNAME")).1,
          g.GetName ≠ Getenv "SFTPGO_NETAUTH_REQUIREGROUP") ∨
      (Getenv "SFTPGO_AUTHD_PUBLIC_KEY" ≠ "" ∧
        statusCode (c.entityKeys (Getenv "SFTPGO_AUTHD_USERNAME") "READ" "SSH" "").2 ≠
          Code.OK) ∨
      (Getenv "SFTPGO_AUTHD_PUBLIC_KEY" ≠ "" ∧
        Getenv "SFTPGO_AUTHD_PUBLIC_KEY" ∉
          mapIndex (c.entityKeys (Getenv "SFTPGO_AUTHD_USERNAME") "READ" "SSH" "").1 "SSH") ∨
      (Getenv "SFTPGO_AUTHD_PUBLIC_KEY" = "" ∧
        statusCode (c.authEntity (Getenv "SFTPGO_AUTHD_USERNAME")
          (Getenv "SFTPGO_AUTHD_PASSWORD")) ≠ Code.OK)) :
    emitted Getenv c = jsonMarshal {} ++ "\n" ∧
    jsonMarshal {} ++ "\n" =
      "\x7b\"username\":\"\",\"permissions\":null,\"filters\":\x7b\x7d\x7d\n" ∧
    minimalSFTPGoUser.members {} =
      [("username", JVal.str ""), ("permissions", JVal.null), ("filters", JVal.obj [])] := by
  refine ⟨?_, by decide, by decide⟩
  rw [emitted_eq, if_neg]
  · rfl
  rintro ⟨⟨h1, h2⟩, hg, hc⟩
  rcases h with h | h | ⟨hr, h⟩ | ⟨hr, h⟩ | ⟨hk, h⟩ | ⟨hk, h⟩ | ⟨hk, h⟩
  · exact h h1
  · rw [h2] at h
    exact Bool.false_ne_true h
  · rcases hg with hg | ⟨hg, -⟩
    · exact hr hg
    · exact h hg
  · rcases hg with hg | ⟨-, g, hg, hname⟩
    · exact hr hg
    · exact h g hg hname
  · rw [credentialOK, if_pos hk] at hc
    exact h hc.1
  · rw [credentialOK, if_pos hk] at hc
    exact h hc.2
  · rw [credentialOK, if_neg (not_not.mpr hk)] at hc
    exact h hc

/-- Scenario E and a wrong password: the same bytes. -/
theorem failure_output_uniform_witness :
    emitted (mkEnv "alice" "" "ssh-ed25519 CCCC" "" "/home")
        (mkClient 1000 [] ["ssh-ed25519 AAAA"] "s3cret") =
      "\x7b\"username\":\"\",\"permissions\":null,\"filters\":\x7b\x7d\x7d\n" ∧
    emitted (mkEnv "alice" "guess" "" "" "/home") (mkClient 1000 [] [] "s3cret") =
      "\x7b\"username\":\"\",\"permissions\":null,\"filters\":\x7b\x7d\x7d\n" :=
  ⟨(failure_output_uniform (mkEnv "alice" "" "ssh-ed25519 CCCC" "" "/home")
      (mkClient 1000 [] ["ssh-ed25519 AAAA"] "s3cret")
      (Or.inr (Or.inr (Or.inr (Or.inr (Or.inr (Or.inl ⟨by decide, by decide⟩))))))).1,
   (failure_output_uniform (mkEnv "alice" "guess" "" "" "/home")
      (mkClient 1000 [] [] "s3cret")
      (Or.inr (Or.inr (Or.inr (Or.inr (Or.inr (Or.inr ⟨by decide, by decide⟩))))))).1⟩

/-! ## The order of the remote calls -/

/-- Claim C10. The remote calls of `doAuth` form a fixed-order sequence that
stops at the first failing check: `EntityInfo` first and once; then
`EntityGroups` exactly when the entity check passed and a group is required;
then one of `EntityKeys` and `AuthEntity` exactly when the entity and group
checks passed. So there are at most three calls, and one call when the entity
lookup fails or the entity is locked. -/
theorem call_sequence (Getenv : String → String) (c : Client) :
    called Getenv c =
      [Call.EntityInfo (Getenv "SFTPGO_AUTHD_USERNAME")] ++
      (if entityOK Getenv c ∧ Getenv "SFTPGO_NETAUTH_REQUIREGROUP" ≠ "" then
        [Call.EntityGroups (Getenv "SFTPGO_AUTHD_USERNAME")] else []) ++
      (if entityOK Getenv c ∧ groupOK Getenv c then
        [if Getenv "SFTPGO_AUTHD_PUBLIC_KEY" ≠ "" then
          Call.EntityKeys (Getenv "SFTPGO_AUTHD_USERNAME") "READ" "SSH" ""
         else
          Call.AuthEntity (Getenv "SFTPGO_AUTHD_USERNAME") (Getenv "SFTPGO_AUTHD_PASSWORD")]
       else []) ∧
    (called Getenv c).length ≤ 3 ∧
    (¬ entityOK Getenv c →
      called Getenv c = [Call.EntityInfo (Getenv "SFTPGO_AUTHD_USERNAME")]) := by
  rw [called_eq]
  refine ⟨by simp [laterCalls], ?_, ?_⟩
  · unfold laterCalls
    split_ifs <;> simp
  · intro h
    simp [laterCalls, h]

/-- An unknown entity: one call. A required group and a password: three. -/
theorem call_sequence_witness :
    called (mkEnv "ghost" "pw" "" "ops" "/home") unknownEntityClient =
      [Call.EntityInfo "ghost"] ∧
    called (mkEnv "alice" "s3cret" "" "ops" "/home") (mkClient 1000 ["ops"] [] "s3cret") =
      [Call.EntityInfo "alice", Call.EntityGroups "alice", Call.AuthEntity "alice" "s3cret"] :=
  ⟨(call_sequence (mkEnv "ghost" "pw" "" "ops" "/home") unknownEntityClient).2.2 (by decide),
   (call_sequence (mkEnv "alice" "s3cret" "" "ops" "/home")
      (mkClient 1000 ["ops"] [] "s3cret")).1⟩

/-! ## The program -/

theorem main_run (h : Host) (w : World) :
    main h w =
      match h.ReadInConfig (configSource h.cfgfile) with
      | some err =>
        (1, { w with stdout := w.stdout ++ ("Error reading config: " ++ err.msg ++ "\n") ++
                denyPayload })
      | none =>
        match h.New with
        | Except.error _ => (1, { w with stdout := w.stdout ++ denyPayload })
        | Except.ok c => (0, (doAuth h.Getenv c w).2) := by
  unfold main
  cases h.ReadInConfig (configSource h.cfgfile) with
  | some err => rfl
  | none =>
    cases h.New with
    | error e => rfl
    | ok c => rfl

/-- In a run in which the configuration is read, standard output is one JSON
object and a newline. -/
theorem stdout_single_object (h : Host)
    (hcfg : h.ReadInConfig (configSource h.cfgfile) = none) :
    ∃ u : minimalSFTPGoUser, (main h {}).2.stdout = jsonMarshal u ++ "\n" := by
  rw [main_run, hcfg]
  cases h.New with
  | error e => exact ⟨{}, String.empty_append _⟩
  | ok c =>
    by_cases hd : emitted h.Getenv c = denyPayload
    · exact ⟨{}, hd⟩
    · exact ⟨_, emitted_of_not_deny h.Getenv c hd⟩

/-- Claim C8, at the run `--config /nonexistent.toml`. Standard output is the
line `Error reading config: ...` followed by the Deny payload; it is not the
encoding of one profile. -/
theorem config_failure_stdout :
    (main missingConfigHost {}).2.stdout =
      "Error reading config: open /nonexistent.toml: no such file or directory\n\x7b\"username\":\"\",\"permissions\":null,\"filters\":\x7b\x7d\x7d\n" ∧
    ¬ ∃ u : minimalSFTPGoUser, (main missingConfigHost {}).2.stdout = jsonMarshal u ++ "\n" := by
  refine ⟨by decide, ?_⟩
  rintro ⟨u, hu⟩
  obtain ⟨t, ht⟩ := jsonMarshal_head u
  rw [ht] at hu
  have h2 := congrArg (fun s => s.data.head?) hu
  have h3 : (main missingConfigHost {}).2.stdout.data.head? = some 'E' := by decide
  simp only [h3, String.data_append] at h2
  simp at h2

/-- Claim C9. The exit code is 1 exactly when configuration loading or client
initialization fails; in those runs the Deny payload is written and no remote
call is made; in every other run the exit code is 0. -/
theorem exit_code (h : Host) :
    ((main h {}).1 = 1 ↔ startupFails h) ∧
    ((main h {}).1 = 0 ↔ ¬ startupFails h) ∧
    (startupFails h →
      (main h {}).2.calls = [] ∧ ∃ pre, (main h {}).2.stdout = pre ++ denyPayload) := by
  rw [main_run]
  unfold startupFails
  cases hcfg : h.ReadInConfig (configSource h.cfgfile) with
  | some err =>
    simp only [ne_eq, reduceCtorEq, not_false_eq_true, true_or, iff_true, not_true_eq_false,
      iff_false, true_implies]
    exact ⟨trivial, trivial, trivial, _, rfl⟩
  | none =>
    cases hnew : h.New with
    | error e =>
      simp only [ne_eq, not_true_eq_false, false_or, Except.error.injEq, exists_eq', iff_true,
        iff_false, true_implies]
      exact ⟨trivial, by decide, trivial, _, rfl⟩
    | ok c =>
      simp

/-- The three kinds of run. -/
theorem exit_code_witness :
    (main missingConfigHost {}).1 = 1 ∧
    (main clientFailureHost {}).1 = 1 ∧
    ((main clientFailureHost {}).2.calls = [] ∧
      ∃ pre, (main clientFailureHost {}).2.stdout = pre ++ denyPayload) ∧
    (main wrongPasswordHost {}).1 = 0 :=
  ⟨(exit_code missingConfigHost).1.mpr (Or.inl (by decide)),
   (exit_code clientFailureHost).1.mpr (Or.inr ⟨_, rfl⟩),
   (exit_code clientFailureHost).2.2 (Or.inr ⟨_, rfl⟩),
   (exit_code wrongPasswordHost).2.1.mpr (by
      rintro (h | ⟨e, h⟩)
      · exact h rfl
      · exact Except.noConfusion h)⟩

end SftpgoHook
